import Mathlib

/-!
# Verification of the forum search subsystem (`biostar/forum/search.py`)

We give a shallow embedding of the indexing and query subsystem and prove the
specification's claims about it.  The underlying text-retrieval engine (whoosh)
is external to the repository; the spec fixes only its logical contract, which
we model explicitly: an index is a collection of committed, numbered documents;
a writer transaction accumulates pending adds and pending deletes (deletes by
document number, resolved against the last committed state); a searcher always
sees the last committed state; commit applies all pending deletes and adds
atomically.
-/

namespace Search

/-- Modelled from the spec: the Post model (in `biostar/forum/models.py`, not
under `src/`) exposes a post status; `index_posts` excludes posts whose status
is the deleted state (`Post.DELETED`). -/
inductive PostStatus where
  | open
  | closed
  | deleted
deriving DecidableEq, Repr

/-- Modelled from the spec: the author's profile record, exposing the display
name, unique id and profile URL used by `add_index`
(`post.author.profile.name`, `.uid`, `.get_absolute_url()`). -/
structure Profile where
  name : String
  uid : String
  absolute_url : String
deriving DecidableEq, Repr

/-- Modelled from the spec: the author reference on a post; `add_index`
reaches the profile through `post.author.profile`. -/
structure Author where
  profile : Profile
deriving DecidableEq, Repr

/-- Modelled from the spec: a post record from the external Post Store, with
exactly the attributes `search.py` reads: unique id, type (display form),
top-level flag, title, content, tag string, rank, last-edit timestamp
(seconds since epoch), canonical URL, status, nullable root reference, and
the author reference. -/
structure Post where
  uid : String
  title : String
  content : String
  tag_val : String
  is_toplevel : Bool
  rank : Int
  lastedit_date : Int
  absolute_url : String
  type_display : String
  status : PostStatus
  root : Option String
  author : Author
deriving DecidableEq, Repr

/-- The indexed representation of one post: one value per schema field, the
exact keyword arguments of `writer.add_document` in `add_index`. -/
structure Doc where
  title : String
  url : String
  type : String
  lastedit_date : Int
  content : String
  tags : String
  is_toplevel : Bool
  rank : Int
  uid : String
  author : String
  author_uid : String
  author_url : String
deriving DecidableEq, Repr

/-- The durable index: the committed documents, each with its document number,
plus the next free document number.  Readers (searchers) see exactly this
committed state; a writer's pending changes are invisible until commit. -/
structure Index where
  docs : List (Nat × Doc)
  nextNum : Nat
deriving DecidableEq, Repr

/-- A writer transaction: pending deletions (by document number, as issued by
`writer.delete_document(docnum=...)`) and pending additions (as issued by
`writer.add_document(...)`), in order. -/
structure Writer where
  deletes : List Nat
  adds : List Doc
deriving DecidableEq, Repr

/-- A fresh, empty index, as produced by `create_in` with the schema. -/
def emptyIndex : Index := { docs := [], nextNum := 0 }

/-- A fresh writer transaction, as produced by `ix.writer()`. -/
def emptyWriter : Writer := { deletes := [], adds := [] }

/-- Source line 16: `STOP_WORDS` is the baseline stopword frozenset of the
retrieval engine (`whoosh.analysis.STOP_WORDS`), transcribed verbatim. -/
def STOP_WORDS : List String :=
  ["a", "an", "and", "are", "as", "at", "be", "by", "can", "for", "from",
   "have", "if", "in", "is", "it", "may", "not", "of", "on", "or", "tbd",
   "that", "the", "this", "to", "us", "we", "when", "will", "with", "yet",
   "you", "your"]

/-- Source lines 16-17: `STOP = ['there', 'where', 'who'] + [w for w in
STOP_WORDS]`, then made into a set (we keep the list; membership is what
matters). -/
def STOP : List String := ["there", "where", "who"] ++ STOP_WORDS

/-- The tokenizer pipeline of `get_schema` (line 65):
`SpaceSeparatedTokenizer() | StopFilter(stoplist=STOP)`.  The tokenizer emits
the maximal nonempty runs of non-whitespace characters; the stop filter then
drops tokens in the stoplist and tokens shorter than the filter's default
minimum size of 2. -/
def tokenize (text : String) : List String :=
  ((((text.toList.splitOnP fun c => c.isWhitespace).map List.asString).filter
      fun t => t ≠ "").filter fun t => 2 ≤ t.length ∧ t ∉ STOP)

/-- All contiguous character substrings of a token with length between `lo`
and `hi`: the n-gram expansion the `NGRAMWORDS` field type applies to each
token (whoosh `NgramFilter`, default minsize 2, maxsize 4). -/
def ngrams (lo hi : Nat) (t : List Char) : List (List Char) :=
  (List.range t.length).flatMap fun start =>
    (List.range (hi + 1 - lo)).filterMap fun k =>
      if start + (lo + k) ≤ t.length then some ((t.drop start).take (lo + k))
      else none

/-- The indexed terms of an `NGRAMWORDS` field (`title` and `content` in
`get_schema`): the custom tokenizer pipeline, then lowercasing, then 2-4
character n-grams of each token (whoosh `NgramWordAnalyzer`). -/
def ngramWordTerms (text : String) : List String :=
  ((tokenize text).map fun t => (t.toList.map Char.toLower).asString).flatMap
    fun t => (ngrams 2 4 t.toList).map List.asString

/-- `add_index`, line 43: the document built for a post — `title` is the
empty string unless the post is top-level, every other field is copied from
the post and its author's profile. -/
def to_document (post : Post) : Doc :=
  { title := if !post.is_toplevel then "" else post.title
    url := post.absolute_url
    type := post.type_display
    lastedit_date := post.lastedit_date
    content := post.content
    tags := post.tag_val
    is_toplevel := post.is_toplevel
    rank := post.rank
    uid := post.uid
    author := post.author.profile.name
    author_uid := post.author.profile.uid
    author_url := post.author.profile.absolute_url }

/-- `add_index(post, writer)`: adds the post's document to the writer's
pending additions. -/
def add_index (post : Post) (w : Writer) : Writer :=
  { w with adds := w.adds ++ [to_document post] }

/-- The searcher's view of a uid lookup: `ix.searcher().search(parse(uid))`
over the `uid` identifier field returns exactly the committed documents whose
`uid` field matches the given uid, with their document numbers. -/
def searchUid (ix : Index) (uid : String) : List (Nat × Doc) :=
  ix.docs.filter fun p => p.2.uid = uid

/-- Number of committed documents in the index whose `uid` field is `uid`. -/
def countUid (ix : Index) (uid : String) : Nat :=
  (searchUid ix uid).length

/-- The document number of the first search hit for a uid, if any. -/
def firstMatchNum (ix : Index) (uid : String) : Option Nat :=
  (searchUid ix uid).head?.map Prod.fst

/-- `delete_existing(ix, writer, uid)`, lines 82-96: search the committed
index (a searcher opened on `ix`) for documents whose `uid` field matches;
if the result is non-empty, delete the first hit's document number from the
writer's pending change set.  The searcher sees only the last committed
state, never the writer's pending additions or deletions. -/
def delete_existing (ix : Index) (w : Writer) (uid : String) : Writer :=
  match searchUid ix uid with
  | [] => w
  | (n, _) :: _ => { w with deletes := n :: w.deletes }

/-- One iteration of the `index_posts` writer loop (lines 122-132): skip the
post if it has no root; otherwise, when updating, delete any existing
document with the post's uid, then add the post's document. -/
def indexStep (ix : Index) (updating : Bool) (w : Writer) (post : Post) :
    Writer :=
  if post.root = none then w
  else
    add_index post (if updating then delete_existing ix w post.uid else w)

/-- `writer.commit()`: atomically apply the writer's pending change set to
the committed state — drop every committed document whose number is pending
deletion, then append the pending additions with fresh document numbers. -/
def numberFrom (n : Nat) : List Doc → List (Nat × Doc)
  | [] => []
  | d :: ds => (n, d) :: numberFrom (n + 1) ds

/-- Commit the writer against the index (line 136). -/
def commit (ix : Index) (w : Writer) : Index :=
  { docs := (ix.docs.filter fun p => p.1 ∉ w.deletes) ++
      numberFrom ix.nextNum w.adds
    nextNum := ix.nextNum + w.adds.length }

/-- The writer loop of `index_posts` over the (already filtered) posts. -/
def runBatch (ix : Index) (updating : Bool) (posts : List Post) : Writer :=
  posts.foldl (indexStep ix updating) emptyWriter

/-- `index_posts(posts, create_new, ...)`, lines 99-137.  `existing` is the
result of `exists_in`/`open_index`: `some ix` when an index exists at the
target location (and opens to committed state `ix`), `none` when none exists.
If an index exists and `create_new` is false, the existing index is opened
for update (`updating = True`); otherwise a brand-new empty index is created.
Deleted posts are excluded before the writer loop; one writer transaction
covers the whole batch and is committed at the end. -/
def index_posts (posts : List Post) (create_new : Bool)
    (existing : Option Index) : Index :=
  let alive := posts.filter fun p => p.status ≠ PostStatus.deleted
  match existing, create_new with
  | some ix, false => commit ix (runBatch ix true alive)
  | some _, true => commit emptyIndex (runBatch emptyIndex false alive)
  | none, _ => commit emptyIndex (runBatch emptyIndex false alive)

/-- The posts the writer loop actually indexes: the batch after the pre-loop
status filter (line 116) and the in-loop root skip (lines 126-127). -/
def survivors (posts : List Post) : List Post :=
  (posts.filter fun p => p.status ≠ PostStatus.deleted).filter
    fun p => p.root ≠ none

/-- Iterated indexing runs: each run is a batch of posts together with its
`create_new` flag, executed against the index left by the previous run. -/
def runAll (ix : Index) : List (List Post × Bool) → Index
  | [] => ix
  | r :: rest => runAll (index_posts r.1 r.2 (some ix)) rest

/-- At most one committed document per post UID — the upsert invariant. -/
def AtMostOne (ix : Index) : Prop :=
  ∀ u, countUid ix u ≤ 1

/-- `open_index`, lines 55-61: try to open the index directory; on any
exception, log and return `None`.  `raw` is the outcome of the underlying
`open_dir` call (`Except.error` when the index is missing or corrupt). -/
def open_index (raw : Except String Index) : Option Index :=
  match raw with
  | Except.ok ix => some ix
  | Except.error _ => none

/-- The stored text of a named schema field of a document. -/
def fieldText (d : Doc) : String → String
  | "title" => d.title
  | "content" => d.content
  | "tags" => d.tags
  | "author" => d.author
  | "url" => d.url
  | "uid" => d.uid
  | "author_uid" => d.author_uid
  | "author_url" => d.author_url
  | _ => ""

/-- The searchable terms a field value produces, per the field's type in
`get_schema`: the `NGRAMWORDS` fields (`title`, `content`) run the custom
tokenizer pipeline plus lowercasing and 2-4 grams; the identifier and
keyword fields match their stored value exactly.  The same analysis is
applied to index field values and to a query string parsed against that
field (query/index symmetry). -/
def fieldTerms (f : String) (text : String) : List String :=
  if f = "title" ∨ f = "content" then ngramWordTerms text else [text]

/-- The engine's match relation for `MultifieldParser(fieldnames=fields)`:
a document matches when some target field shares a term with the query
string analysed against that field.  (The spec leaves the engine's
And/Or-combination of multiple terms to the engine default; no claim proved
here depends on that choice.) -/
def docMatches (fields : List String) (q : String) (d : Doc) : Bool :=
  fields.any fun f =>
    (fieldTerms f q).any fun t => t ∈ fieldTerms f (fieldText d f)

/-- The presentation parameters of a result set's highlighter: maximum
excerpt length in characters, and characters of context kept on each side
of a match span.  The engine default is `maxchars = 200`, `surround = 20`. -/
structure Fragmenter where
  maxchars : Nat
  surround : Nat
deriving DecidableEq, Repr

/-- A result set: the ranked matched documents (at most `limit` of them)
together with the fragmenter that renders highlighted excerpts. -/
structure Results where
  hits : List Doc
  fragmenter : Fragmenter
deriving DecidableEq, Repr

/-- The outcome of a call to `query`: either a result set, or a Python
exception of the given class propagating into the caller. -/
inductive QueryOutcome where
  | results (r : Results)
  | pythonError (exc : String)
deriving DecidableEq, Repr

/-- Whether a query outcome is a result set (rather than an exception). -/
def QueryOutcome.isResultSet : QueryOutcome → Bool
  | QueryOutcome.results _ => true
  | QueryOutcome.pythonError _ => false

/-- `query(q, fields, index_dir, index_name, **kwargs)`, lines 140-159.
`raw` is the outcome of opening the index; `sfc` is the configured constant
`settings.SIMILAR_FEED_COUNT`; `kwargsLimit` is the `limit` keyword if the
caller passed one in `**kwargs` (the function has no `limit` parameter of
its own).

- `open_index` failure leaves `ix = None`, and the unguarded
  `ix.searcher()` raises `AttributeError` into the caller.
- The search call is `searcher.search(parser, limit=settings.SIMILAR_FEED_COUNT,
  **kwargs)`, so a caller-supplied `limit` collides with the hard-coded one
  and raises `TypeError` (multiple values for keyword argument).
- Otherwise the engine retrieves at most `sfc` ranked matches, and the two
  assignments `results.fragmenter.maxchars = 300` and
  `results.fragmenter.surround = 50` override the default presentation
  parameters. -/
def query (raw : Except String Index) (q : String) (fields : List String)
    (sfc : Nat) (kwargsLimit : Option Nat) : QueryOutcome :=
  match open_index raw with
  | none => QueryOutcome.pythonError "AttributeError"
  | some ix =>
    match kwargsLimit with
    | some _ => QueryOutcome.pythonError "TypeError"
    | none =>
      let r : Results :=
        { hits := ((ix.docs.map Prod.snd).filter (docMatches fields q)).take
            sfc
          fragmenter := { maxchars := 200, surround := 20 } }
      let r := { r with fragmenter := { r.fragmenter with maxchars := 300 } }
      let r := { r with fragmenter := { r.fragmenter with surround := 50 } }
      QueryOutcome.results r

/-- Start of the excerpt window: `surround` characters before the match
span (clipped at the start of the text). -/
def excerptLo (f : Fragmenter) (start : Nat) : Nat :=
  start - f.surround

/-- End of the excerpt window: `surround` characters after the match span
(clipped at the end of the text). -/
def excerptHi (f : Fragmenter) (len stop : Nat) : Nat :=
  min (stop + f.surround) len

/-- Modelled from the spec: the engine's context fragmenter (external to the
repository) renders, for a match span `[start, stop)` of a stored text, the
window of up to `surround` characters on each side of the span, truncated
to at most `maxchars` characters. -/
def makeExcerpt (f : Fragmenter) (text : List Char) (start stop : Nat) :
    List Char :=
  ((text.drop (excerptLo f start)).take
    (excerptHi f text.length stop - excerptLo f start)).take f.maxchars

/-- Characters of context the excerpt window keeps before the match span. -/
def contextBefore (f : Fragmenter) (start : Nat) : Nat :=
  start - excerptLo f start

/-- Characters of context the excerpt window keeps after the match span. -/
def contextAfter (f : Fragmenter) (len stop : Nat) : Nat :=
  excerptHi f len stop - stop

/-- A concrete author profile, used to instantiate the theorems on concrete
inputs. -/
def exampleProfile : Profile :=
  { name := "Alice", uid := "u1", absolute_url := "/u/u1/" }

/-- A concrete top-level, non-deleted post with a root, used to instantiate
the theorems on concrete inputs. -/
def examplePost : Post :=
  { uid := "p1", title := "Metagenomics question", content := "alpha beta",
    tag_val := "metagenomics", is_toplevel := true, rank := 5,
    lastedit_date := 100, absolute_url := "/p/p1/",
    type_display := "Question", status := PostStatus.open,
    root := some "p1", author := { profile := exampleProfile } }

/-- A concrete non-top-level post (a comment). -/
def exampleComment : Post :=
  { examplePost with
      uid := "c1"
      title := "ignored title"
      content := "comment text"
      is_toplevel := false }

/-- A concrete post in the deleted state. -/
def exampleDeleted : Post :=
  { examplePost with uid := "d1", status := PostStatus.deleted }

/-- A second concrete post sharing `examplePost`'s uid. -/
def examplePost2 : Post :=
  { examplePost with title := "Duplicate uid", content := "gamma delta" }

/-- A concrete committed index holding `examplePost`'s document. -/
def exampleIndex : Index :=
  index_posts [examplePost] false (some emptyIndex)

/-- A concrete committed index holding two documents with the same uid. -/
def dupIndex : Index :=
  { docs := [(0, to_document examplePost), (1, to_document examplePost2)],
    nextNum := 2 }

/-- The concrete result set `query` returns for the query "alpha" on the
content field of `exampleIndex`. -/
def exampleResults : Results :=
  { hits := [to_document examplePost],
    fragmenter := { maxchars := 300, surround := 50 } }

/-! ## Writer and commit characterization lemmas -/

lemma to_document_uid (p : Post) : (to_document p).uid = p.uid := rfl

lemma delete_existing_adds (ix : Index) (w : Writer) (u : String) :
    (delete_existing ix w u).adds = w.adds := by
  unfold delete_existing
  cases h : searchUid ix u with
  | nil => rfl
  | cons e rest => obtain ⟨n, d⟩ := e; rfl

lemma mem_delete_existing_deletes (ix : Index) (w : Writer) (u : String)
    (n : Nat) :
    n ∈ (delete_existing ix w u).deletes ↔
      firstMatchNum ix u = some n ∨ n ∈ w.deletes := by
  unfold delete_existing firstMatchNum
  cases h : searchUid ix u with
  | nil => simp
  | cons e rest =>
    obtain ⟨m, d⟩ := e
    simp [List.mem_cons, eq_comm]

lemma add_index_deletes (p : Post) (w : Writer) :
    (add_index p w).deletes = w.deletes := rfl

lemma foldl_indexStep_adds (ix : Index) (b : Bool) (posts : List Post)
    (w : Writer) :
    (posts.foldl (indexStep ix b) w).adds =
      w.adds ++ (posts.filter fun p => p.root ≠ none).map to_document := by
  induction posts generalizing w with
  | nil => simp
  | cons p ps ih =>
    rw [List.foldl_cons, ih]
    by_cases h : p.root = none
    · simp [indexStep, h]
    · cases b <;>
        simp [indexStep, h, add_index, delete_existing_adds,
          List.append_assoc]

lemma foldl_indexStep_deletes (ix : Index) (posts : List Post) (w : Writer)
    (n : Nat) :
    n ∈ (posts.foldl (indexStep ix true) w).deletes ↔
      (∃ p ∈ posts, p.root ≠ none ∧ firstMatchNum ix p.uid = some n) ∨
        n ∈ w.deletes := by
  induction posts generalizing w with
  | nil => simp
  | cons p ps ih =>
    rw [List.foldl_cons]
    by_cases h : p.root = none
    · rw [ih, indexStep, if_pos h]
      simp only [List.mem_cons]
      constructor
      · rintro (⟨q, hq, hr, hm⟩ | hw)
        · exact Or.inl ⟨q, Or.inr hq, hr, hm⟩
        · exact Or.inr hw
      · rintro (⟨q, rfl | hq, hr, hm⟩ | hw)
        · exact absurd h hr
        · exact Or.inl ⟨q, hq, hr, hm⟩
        · exact Or.inr hw
    · rw [ih, indexStep, if_neg h, if_pos rfl, add_index_deletes,
        mem_delete_existing_deletes]
      simp only [List.mem_cons]
      constructor
      · rintro (⟨q, hq, hr, hm⟩ | hm | hw)
        · exact Or.inl ⟨q, Or.inr hq, hr, hm⟩
        · exact Or.inl ⟨p, Or.inl rfl, h, hm⟩
        · exact Or.inr hw
      · rintro (⟨q, rfl | hq, hr, hm⟩ | hw)
        · exact Or.inr (Or.inl hm)
        · exact Or.inl ⟨q, hq, hr, hm⟩
        · exact Or.inr (Or.inr hw)

lemma runBatch_adds (ix : Index) (b : Bool) (posts : List Post) :
    (runBatch ix b posts).adds =
      (posts.filter fun p => p.root ≠ none).map to_document := by
  rw [runBatch, foldl_indexStep_adds]; rfl

lemma mem_runBatch_deletes (ix : Index) (posts : List Post) (n : Nat) :
    n ∈ (runBatch ix true posts).deletes ↔
      ∃ p ∈ posts, p.root ≠ none ∧ firstMatchNum ix p.uid = some n := by
  rw [runBatch, foldl_indexStep_deletes]
  simp [emptyWriter]

lemma numberFrom_map_snd (n : Nat) (ds : List Doc) :
    (numberFrom n ds).map Prod.snd = ds := by
  induction ds generalizing n with
  | nil => rfl
  | cons d ds ih => simp [numberFrom, ih]

lemma length_filter_numberFrom (q : Doc → Bool) (ds : List Doc) (n : Nat) :
    ((numberFrom n ds).filter fun p => q p.2).length = ds.countP q := by
  induction ds generalizing n with
  | nil => rfl
  | cons d ds ih =>
    by_cases h : q d <;>
      simp [numberFrom, List.filter_cons, h, ih, List.countP_cons]

lemma countUid_commit (ix : Index) (w : Writer) (u : String) :
    countUid (commit ix w) u =
      ((searchUid ix u).filter fun p => p.1 ∉ w.deletes).length +
        w.adds.countP fun d => decide (d.uid = u) := by
  unfold countUid searchUid commit
  rw [List.filter_append, List.length_append, List.filter_filter,
    List.filter_filter]
  congr 1
  · exact congrArg List.length
      (List.filter_congr fun a _ => Bool.and_comm _ _)
  · exact length_filter_numberFrom (fun d => decide (d.uid = u)) w.adds
      ix.nextNum

lemma countUid_le_length (ix : Index) (u : String) :
    countUid ix u ≤ ix.docs.length :=
  List.length_filter_le _ _

/-- The document count at uid `u` after an update run: the committed
documents at `u` that escaped the batch's pending deletions, plus one for
each surviving batch post whose uid is `u`. -/
lemma countUid_index_posts_update (ix : Index) (posts : List Post)
    (u : String) :
    countUid (index_posts posts false (some ix)) u =
      ((searchUid ix u).filter fun p =>
          p.1 ∉ (runBatch ix true
            (posts.filter fun q => q.status ≠ PostStatus.deleted)).deletes).length +
        (survivors posts).countP fun p => decide (p.uid = u) := by
  show countUid (commit ix (runBatch ix true _)) u = _
  rw [countUid_commit]
  congr 1
  rw [runBatch_adds, List.countP_map]
  rfl

/-- The document count at uid `u` after a create run (fresh index). -/
lemma countUid_index_posts_create (posts : List Post) (u : String)
    (existing : Option Index) (create_new : Bool)
    (h : create_new = true ∨ existing = none) :
    countUid (index_posts posts create_new existing) u =
      (survivors posts).countP fun p => decide (p.uid = u) := by
  have key : ∀ (posts' : List Post),
      countUid (commit emptyIndex (runBatch emptyIndex false
        (posts'.filter fun q => q.status ≠ PostStatus.deleted))) u =
      (survivors posts').countP fun p => decide (p.uid = u) := by
    intro posts'
    rw [countUid_commit, runBatch_adds, List.countP_map]
    have he : searchUid emptyIndex u = [] := rfl
    rw [he]
    simp only [List.filter_nil, List.length_nil, Nat.zero_add]
    rfl
  rcases h with h | h
  · subst h
    cases existing with
    | none => exact key posts
    | some ix => exact key posts
  · subst h
    cases create_new with
    | false => exact key posts
    | true => exact key posts

lemma countP_uid_le_one {l : List Post} (h : (l.map Post.uid).Nodup)
    (u : String) :
    (l.countP fun p => decide (p.uid = u)) ≤ 1 := by
  induction l with
  | nil => simp
  | cons p ps ih =>
    rw [List.map_cons, List.nodup_cons] at h
    rw [List.countP_cons]
    by_cases hu : p.uid = u
    · have h0 : (ps.countP fun p => decide (p.uid = u)) = 0 := by
        rw [List.countP_eq_zero]
        intro q hq
        simp only [decide_eq_true_eq]
        intro hqu
        exact h.1 (hu ▸ hqu ▸ List.mem_map_of_mem Post.uid hq)
      simp [hu, h0]
    · rw [if_neg (by simp [hu] : ¬(decide (p.uid = u) = true))]
      have := ih h.2
      omega

lemma mem_survivors (p : Post) (posts : List Post) :
    p ∈ survivors posts ↔
      p ∈ posts ∧ p.status ≠ PostStatus.deleted ∧ p.root ≠ none := by
  unfold survivors
  simp only [List.mem_filter, decide_eq_true_eq]
  tauto

/-- When some surviving batch post has uid `u` and the committed index holds
at most one document at `u`, the batch's pending deletions cover every
committed document at `u`. -/
lemma kept_eq_zero (ix : Index) (posts : List Post) (u : String)
    (h1 : countUid ix u ≤ 1)
    (hex : ∃ p ∈ survivors posts, p.uid = u) :
    ((searchUid ix u).filter fun p =>
        p.1 ∉ (runBatch ix true
          (posts.filter fun q => q.status ≠ PostStatus.deleted)).deletes).length
      = 0 := by
  obtain ⟨p, hp, hpu⟩ := hex
  have hp1 : p ∈ posts.filter fun q => q.status ≠ PostStatus.deleted :=
    (List.mem_filter.mp hp).1
  have hp2 : p.root ≠ none := by
    have := (List.mem_filter.mp hp).2
    simpa using this
  cases hs : searchUid ix u with
  | nil => simp
  | cons e rest =>
    have hrest : rest = [] := by
      unfold countUid at h1
      rw [hs] at h1
      simp only [List.length_cons] at h1
      exact List.length_eq_zero.mp (by omega)
    have hfm : firstMatchNum ix p.uid = some e.1 := by
      unfold firstMatchNum
      rw [hpu, hs]
      rfl
    have hdel : e.1 ∈ (runBatch ix true
        (posts.filter fun q => q.status ≠ PostStatus.deleted)).deletes := by
      rw [mem_runBatch_deletes]
      exact ⟨p, hp1, hp2, hfm⟩
    subst hrest
    rw [List.length_eq_zero, List.filter_eq_nil_iff]
    intro a ha
    have hae : a = e := by simpa using ha
    subst hae
    simpa using hdel

lemma countUid_update_eq_one (ix : Index) (posts : List Post) (u : String)
    (h1 : countUid ix u ≤ 1)
    (hk : ((survivors posts).countP fun p => decide (p.uid = u)) = 1) :
    countUid (index_posts posts false (some ix)) u = 1 := by
  have hex : ∃ p ∈ survivors posts, p.uid = u := by
    have hpos : 0 < (survivors posts).countP fun p => decide (p.uid = u) := by
      omega
    obtain ⟨p, hp, hpu⟩ := List.countP_pos_iff.mp hpos
    exact ⟨p, hp, of_decide_eq_true hpu⟩
  rw [countUid_index_posts_update, kept_eq_zero ix posts u h1 hex, hk]

lemma countUid_update_le (ix : Index) (posts : List Post) (u : String)
    (hk : ((survivors posts).countP fun p => decide (p.uid = u)) = 0) :
    countUid (index_posts posts false (some ix)) u ≤ countUid ix u := by
  rw [countUid_index_posts_update, hk, Nat.add_zero]
  exact List.length_filter_le _ _

/-! ## The claims -/

/-- C1: in every update run of `index_posts` (`create_new` false on an
existing index), every post the writer loop indexes undergoes
delete-before-reindex — whenever the committed index holds a document whose
`uid` field matches the post's uid, that document's number enters the
writer's pending deletions, and the post's new document enters the pending
additions — so that, from a committed state with at most one live document
per uid and a batch whose surviving posts have pairwise distinct uids, the
committed index after the run again has at most one live document per post
UID. -/
theorem C1_delete_before_reindex (ix : Index) (posts : List Post)
    (hA : AtMostOne ix)
    (hN : ((survivors posts).map Post.uid).Nodup) :
    (∀ p ∈ survivors posts,
        (∀ n, firstMatchNum ix p.uid = some n →
          n ∈ (runBatch ix true
            (posts.filter fun q => q.status ≠ PostStatus.deleted)).deletes) ∧
        to_document p ∈ (runBatch ix true
          (posts.filter fun q => q.status ≠ PostStatus.deleted)).adds) ∧
    AtMostOne (index_posts posts false (some ix)) := by
  constructor
  · intro p hp
    have hp1 := (mem_survivors p posts).mp hp
    constructor
    · intro n hn
      rw [mem_runBatch_deletes]
      refine ⟨p, ?_, hp1.2.2, hn⟩
      exact List.mem_filter.mpr ⟨hp1.1, by simp [hp1.2.1]⟩
    · rw [runBatch_adds]
      exact List.mem_map_of_mem to_document hp
  · intro u
    by_cases hk : ((survivors posts).countP fun p => decide (p.uid = u)) = 0
    · exact le_trans (countUid_update_le ix posts u hk) (hA u)
    · have hle := countP_uid_le_one hN u
      have h1 : ((survivors posts).countP fun p => decide (p.uid = u)) = 1 :=
        by omega
      rw [countUid_update_eq_one ix posts u (hA u) h1]

/-- Witness for C1 at a concrete input. -/
theorem C1_witness :
    AtMostOne (index_posts [examplePost] false (some emptyIndex)) :=
  (C1_delete_before_reindex emptyIndex [examplePost]
    (fun _ => Nat.zero_le 1) (by decide)).2

/-- C2: indexing the same unchanged (live, rooted) post twice in update
mode, each run a separately committed batch, leaves exactly one document
with that post's UID in the index, starting from any committed state with
at most one document at that UID. -/
theorem C2_reindexing_idempotent (ix : Index) (p : Post)
    (halive : p.status ≠ PostStatus.deleted) (hroot : p.root ≠ none)
    (h1 : countUid ix p.uid ≤ 1) :
    countUid (index_posts [p] false
      (some (index_posts [p] false (some ix)))) p.uid = 1 := by
  have hsurv : survivors [p] = [p] := by
    unfold survivors
    simp [halive, hroot]
  have hk : ((survivors [p]).countP fun q => decide (q.uid = p.uid)) = 1 := by
    rw [hsurv]
    simp
  have r1 := countUid_update_eq_one ix [p] p.uid h1 hk
  exact countUid_update_eq_one _ [p] p.uid (le_of_eq r1) hk

/-- Witness for C2 at a concrete input. -/
theorem C2_witness :
    countUid (index_posts [examplePost] false
      (some (index_posts [examplePost] false (some emptyIndex))))
      examplePost.uid = 1 :=
  C2_reindexing_idempotent emptyIndex examplePost (by decide) (by decide)
    (by decide)

/-- C5: a deleted post is filtered out before the writer loop (it never
appears in the filtered batch the loop iterates over), and across any
sequence of indexing runs — update or create — in whose inputs every post
carrying its uid is deleted, no document with its uid is ever present in
the committed index, provided none was present initially. -/
theorem C5_deleted_post_exclusion (dp : Post)
    (hdel : dp.status = PostStatus.deleted) :
    (∀ posts : List Post,
        dp ∉ posts.filter fun p => p.status ≠ PostStatus.deleted) ∧
    ∀ runs : List (List Post × Bool), ∀ ix : Index,
      countUid ix dp.uid = 0 →
      (∀ r ∈ runs, ∀ q ∈ r.1, q.uid = dp.uid →
        q.status = PostStatus.deleted) →
      countUid (runAll ix runs) dp.uid = 0 := by
  constructor
  · intro posts hmem
    have := (List.mem_filter.mp hmem).2
    simp [hdel] at this
  · intro runs
    induction runs with
    | nil => exact fun ix h0 _ => h0
    | cons r rest ih =>
      intro ix h0 hall
      show countUid (runAll (index_posts r.1 r.2 (some ix)) rest) dp.uid = 0
      apply ih
      · have hk : ((survivors r.1).countP
            fun p => decide (p.uid = dp.uid)) = 0 := by
          rw [List.countP_eq_zero]
          intro q hq
          simp only [decide_eq_true_eq]
          intro hqu
          have hq' := (mem_survivors q r.1).mp hq
          exact hq'.2.1 (hall r (List.mem_cons_self r rest) q hq'.1 hqu)
        cases hcn : r.2 with
        | false =>
          have := countUid_update_le ix r.1 dp.uid hk
          omega
        | true =>
          rw [countUid_index_posts_create r.1 dp.uid (some ix) true
            (Or.inl rfl), hk]
      · exact fun r' hr' => hall r' (List.mem_cons_of_mem r hr')

/-- Witness for C5 at a concrete input. -/
theorem C5_witness :
    exampleDeleted ∉ ([exampleDeleted, examplePost].filter
      fun p => p.status ≠ PostStatus.deleted) ∧
    countUid (runAll emptyIndex
      [([exampleDeleted, examplePost], false), ([exampleDeleted], true)])
      exampleDeleted.uid = 0 := by
  have h := C5_deleted_post_exclusion exampleDeleted rfl
  exact ⟨h.1 [exampleDeleted, examplePost],
    h.2 [([exampleDeleted, examplePost], false), ([exampleDeleted], true)]
      emptyIndex (by decide) (by decide)⟩

/-- C9: `delete_existing` deletes at most one document per call — when two
or more committed documents match the uid, committing just that deletion
removes only the first search hit and leaves the remaining matching
documents in place (the match list afterwards is exactly the tail of the
match list before). -/
theorem C9_single_delete (ix : Index) (u : String)
    (hnd : (ix.docs.map Prod.fst).Nodup)
    (h2 : 2 ≤ countUid ix u) :
    searchUid (commit ix (delete_existing ix emptyWriter u)) u =
      (searchUid ix u).tail ∧
    countUid (commit ix (delete_existing ix emptyWriter u)) u =
      countUid ix u - 1 := by
  have hnd2 : ((searchUid ix u).map Prod.fst).Nodup :=
    List.Nodup.sublist ((List.filter_sublist ix.docs).map Prod.fst) hnd
  rcases hsE : searchUid ix u with _ | ⟨⟨n, d⟩, rest⟩
  · unfold countUid at h2
    rw [hsE] at h2
    simp at h2
  · have hmemn : n ∉ rest.map Prod.fst := by
      rw [hsE] at hnd2
      exact (List.nodup_cons.mp hnd2).1
    have hw : delete_existing ix emptyWriter u =
        { deletes := [n], adds := [] } := by
      unfold delete_existing
      rw [hsE]
      rfl
    have key : searchUid (commit ix { deletes := [n], adds := [] }) u =
        (searchUid ix u).filter fun p => p.1 ∉ ([n] : List Nat) := by
      unfold searchUid commit
      simp only [numberFrom, List.append_nil]
      rw [List.filter_filter, List.filter_filter]
      exact List.filter_congr fun a _ => Bool.and_comm _ _
    have hfil : ((searchUid ix u).filter
        fun p => p.1 ∉ ([n] : List Nat)) = rest := by
      rw [hsE, List.filter_cons]
      rw [if_neg (by simp : ¬(decide ((n, d).1 ∉ ([n] : List Nat)) = true))]
      apply List.filter_eq_self.mpr
      intro a ha
      have hne : a.1 ≠ n := by
        intro hc
        exact hmemn (hc ▸ List.mem_map_of_mem Prod.fst ha)
      simp [hne]
    have htail : searchUid (commit ix (delete_existing ix emptyWriter u)) u
        = rest := by
      rw [hw, key, hfil]
    constructor
    · rw [htail]
      rfl
    · unfold countUid
      rw [htail, hsE]
      simp

/-- Witness for C9 at a concrete input. -/
theorem C9_witness :
    searchUid (commit dupIndex (delete_existing dupIndex emptyWriter "p1"))
        "p1" = (searchUid dupIndex "p1").tail ∧
    countUid (commit dupIndex (delete_existing dupIndex emptyWriter "p1"))
        "p1" = countUid dupIndex "p1" - 1 :=
  C9_single_delete dupIndex "p1" (by decide) (by decide)

/-- C10: delete-before-reindex consults only the last committed state — the
searcher opened on the index — never the writer's pending additions, so an
update batch holding two posts with the same uid adds both mapped documents
and both are visible after commit. -/
theorem C10_searcher_sees_committed_only (ix : Index) (p1 p2 : Post)
    (h1a : p1.status ≠ PostStatus.deleted) (h1r : p1.root ≠ none)
    (h2a : p2.status ≠ PostStatus.deleted) (h2r : p2.root ≠ none)
    (huid : p1.uid = p2.uid) :
    to_document p1 ∈
      (index_posts [p1, p2] false (some ix)).docs.map Prod.snd ∧
    to_document p2 ∈
      (index_posts [p1, p2] false (some ix)).docs.map Prod.snd ∧
    2 ≤ countUid (index_posts [p1, p2] false (some ix)) p1.uid := by
  have hsurv : survivors [p1, p2] = [p1, p2] := by
    unfold survivors
    simp [h1a, h1r, h2a, h2r]
  have hdocs : (index_posts [p1, p2] false (some ix)).docs.map Prod.snd =
      ((ix.docs.filter fun p =>
        p.1 ∉ (runBatch ix true
          ([p1, p2].filter fun q =>
            q.status ≠ PostStatus.deleted)).deletes).map Prod.snd) ++
        [to_document p1, to_document p2] := by
    show (commit ix (runBatch ix true _)).docs.map Prod.snd = _
    unfold commit
    rw [List.map_append, numberFrom_map_snd, runBatch_adds]
    have : ((([p1, p2].filter fun q =>
        q.status ≠ PostStatus.deleted).filter fun p => p.root ≠ none)) =
        [p1, p2] := hsurv
    rw [this]
    rfl
  refine ⟨?_, ?_, ?_⟩
  · rw [hdocs]
    exact List.mem_append_right _ (by simp)
  · rw [hdocs]
    exact List.mem_append_right _ (by simp)
  · rw [countUid_index_posts_update, hsurv]
    have hcnt : (([p1, p2] : List Post).countP
        fun p => decide (p.uid = p1.uid)) = 2 := by
      simp [List.countP_cons, huid.symm]
    rw [hcnt]
    omega

/-- Witness for C10 at a concrete input. -/
theorem C10_witness :
    to_document examplePost ∈
      (index_posts [examplePost, examplePost2] false
        (some emptyIndex)).docs.map Prod.snd ∧
    to_document examplePost2 ∈
      (index_posts [examplePost, examplePost2] false
        (some emptyIndex)).docs.map Prod.snd ∧
    2 ≤ countUid (index_posts [examplePost, examplePost2] false
        (some emptyIndex)) examplePost.uid :=
  C10_searcher_sees_committed_only emptyIndex examplePost examplePost2
    (by decide) (by decide) (by decide) (by decide) (by decide)

/-- C3 counterexample: the claim says `query` accepts a result-count limit
parameter (defaulting to the configured constant) and then returns at most
that many ranked documents; but passing a `limit` through the only available
channel (`**kwargs`) collides with the hard-coded
`limit=settings.SIMILAR_FEED_COUNT` in the `searcher.search` call and
raises `TypeError` — no result set at all is returned at this input. -/
theorem C3_counterexample :
    query (Except.ok exampleIndex) "alpha" ["content"] 5 (some 3) =
      QueryOutcome.pythonError "TypeError" ∧
    (query (Except.ok exampleIndex) "alpha" ["content"] 5
      (some 3)).isResultSet = false := by
  constructor
  · rfl
  · rfl

/-- C3 (amended): `query` has no usable caller-supplied result-count limit —
the search always runs with `limit` equal to the configured constant
`settings.SIMILAR_FEED_COUNT`, and every query that returns a result set
returns at most that many ranked documents. -/
theorem C3_fixed_limit (raw : Except String Index) (q : String)
    (fields : List String) (sfc : Nat) (r : Results)
    (h : query raw q fields sfc none = QueryOutcome.results r) :
    r.hits.length ≤ sfc := by
  cases raw with
  | error e => simp [query, open_index] at h
  | ok ix =>
    rw [show query (Except.ok ix) q fields sfc none = QueryOutcome.results
        { hits := ((ix.docs.map Prod.snd).filter (docMatches fields q)).take
            sfc
          fragmenter := { maxchars := 300, surround := 50 } } from rfl] at h
    injection h with h2
    rw [← h2]
    dsimp only
    rw [List.length_take]
    omega

/-- Witness for the amended C3 at a concrete input. -/
theorem C3_witness : exampleResults.hits.length ≤ 5 :=
  C3_fixed_limit (Except.ok exampleIndex) "alpha" ["content"] 5
    exampleResults (by decide)

/-- C4: at the failing input — a query against an index that cannot be
opened — `open_index` itself absorbs the failure into an explicit absent
index (`none`), but `query` never checks for it: the unguarded
`ix.searcher()` raises `AttributeError` into the caller, so the caller gets
a propagating exception, not an explicit search-unavailable result. -/
theorem C4_missing_index_crashes :
    open_index (Except.error "index missing") = none ∧
    query (Except.error "index missing") "test query" ["content"] 5 none =
      QueryOutcome.pythonError "AttributeError" ∧
    (query (Except.error "index missing") "test query" ["content"] 5
      none).isResultSet = false := by
  refine ⟨rfl, rfl, rfl⟩

/-- C6: the mapped document's title equals the post's title exactly when the
post is top-level and the empty string otherwise; consequently the title
field of a non-top-level post yields no searchable term at all, so a query
over the title field can never match a non-top-level post's text. -/
theorem C6_title_scoping (post : Post) :
    ((to_document post).title =
      if post.is_toplevel then post.title else "") ∧
    (post.is_toplevel = false →
      ∀ t, t ∉ ngramWordTerms (to_document post).title) := by
  constructor
  · unfold to_document
    cases h : post.is_toplevel <;> simp
  · intro h t
    have htitle : (to_document post).title = "" := by
      unfold to_document
      simp [h]
    rw [htitle]
    have hempty : ngramWordTerms "" = [] := by decide
    simp [hempty]

/-- Witness for C6 at a concrete input. -/
theorem C6_witness :
    (to_document exampleComment).title = "" ∧
    "comment" ∉ ngramWordTerms (to_document exampleComment).title := by
  have h := C6_title_scoping exampleComment
  exact ⟨by simpa using h.1, h.2 rfl "comment"⟩

/-- C7: every result set returned by `query` carries the fixed presentation
parameters `maxchars = 300` and `surround = 50` (set by the two assignments
after the search call), and under those parameters every rendered excerpt
is at most 300 characters long and keeps at most 50 characters of context
on each side of the match span. -/
theorem C7_highlight_bounds (raw : Except String Index) (q : String)
    (fields : List String) (sfc : Nat) (r : Results)
    (h : query raw q fields sfc none = QueryOutcome.results r) :
    r.fragmenter.maxchars = 300 ∧ r.fragmenter.surround = 50 ∧
    ∀ (text : List Char) (start stop : Nat),
      (makeExcerpt r.fragmenter text start stop).length ≤ 300 ∧
      contextBefore r.fragmenter start ≤ 50 ∧
      contextAfter r.fragmenter text.length stop ≤ 50 := by
  have hf : r.fragmenter = { maxchars := 300, surround := 50 } := by
    cases raw with
    | error e => simp [query, open_index] at h
    | ok ix =>
      rw [show query (Except.ok ix) q fields sfc none = QueryOutcome.results
          { hits := ((ix.docs.map Prod.snd).filter
              (docMatches fields q)).take sfc
            fragmenter := { maxchars := 300, surround := 50 } } from rfl] at h
      injection h with h2
      rw [← h2]
  refine ⟨by rw [hf], by rw [hf], ?_⟩
  intro text start stop
  rw [hf]
  refine ⟨?_, ?_, ?_⟩
  · unfold makeExcerpt
    dsimp only
    rw [List.length_take]
    omega
  · unfold contextBefore excerptLo
    dsimp only
    omega
  · unfold contextAfter excerptHi
    dsimp only
    omega

/-- Witness for C7 at a concrete input. -/
theorem C7_witness :
    (makeExcerpt exampleResults.fragmenter
      "some stored content with a match somewhere inside it".toList
      10 15).length ≤ 300 := by
  have h := C7_highlight_bounds (Except.ok exampleIndex) "alpha" ["content"]
    5 exampleResults (by decide)
  exact (h.2.2 "some stored content with a match somewhere inside it".toList
    10 15).1

/-- C8: the stopword set is the engine's baseline list plus exactly the
three additions "there", "where" and "who" — the members of `STOP` outside
the baseline are exactly those three, and every baseline word is in
`STOP`. -/
theorem C8_stopword_set :
    (STOP.filter fun w => decide (w ∉ STOP_WORDS)) =
      ["there", "where", "who"] ∧
    (STOP_WORDS.all fun w => decide (w ∈ STOP)) = true := by
  constructor
  · decide
  · decide

end Search
